import Mathlib

/-!
Verification of the declarative settings-matching and view-derivation core of
the `bobbie` project-configuration library.

The development shallowly embeds the Python source:

* insertion-ordered Python `dict`s become association lists (`PyDict`),
  with `alistInsert` modelling `d[k] = v` and `dictUpdate` modelling
  `d.update(other)`;
* Python scalar values become the inductive `PyVal`; Python `float` values
  become `PyFloat` (finite values are kept as exact decimal rationals, which
  is enough for every property studied here, none of which depends on
  binary64 rounding);
* the string-to-scalar conversion `_typify` (src/src/bobbie/utilities.py,
  also exposed as `camina.typify`), the term matchers and view projectors of
  src/bobbie/parsers.py, the `Settings` construction pipeline of
  src/bobbie/core.py and src/src/bobbie/core.py, and the `Parser`
  descriptor of src/src/bobbie/extensions.py are translated function by
  function.
-/

namespace Bobbie

/-! ## Insertion-ordered dictionaries as association lists -/

/-- Model of a Python `dict` with `String` keys: an insertion-ordered
association list. -/
abbrev PyDict (α : Type) : Type := List (String × α)

/-- Model of Python `d[k]`-style lookup (`d.get(k)` returning `None` when the
key is absent). -/
def alistLookup {α : Type} (xs : PyDict α) (k : String) : Option α :=
  match xs with
  | [] => none
  | (k', v) :: rest => if k = k' then some v else alistLookup rest k

/-- Model of the Python statement `d[k] = v`: replace the value in place when
the key is present (keeping its position), append the pair otherwise. -/
def alistInsert {α : Type} (xs : PyDict α) (k : String) (v : α) : PyDict α :=
  match xs with
  | [] => [(k, v)]
  | (k', v') :: rest =>
      if k = k' then (k', v) :: rest else (k', v') :: alistInsert rest k v

/-- Model of Python `d.update(other)`: assign every pair of `other` into `d`
in iteration order. -/
def dictUpdate {α : Type} (xs ys : PyDict α) : PyDict α :=
  ys.foldl (fun acc kv => alistInsert acc kv.1 kv.2) xs

/-- Model of building a fresh Python `dict` from a sequence of key/value
pairs (a dict comprehension or a loop of `new[k] = v` statements starting
from `{}`): later occurrences of a key overwrite earlier ones. -/
def pyDictOfList {α : Type} (l : List (String × α)) : PyDict α :=
  dictUpdate [] l

/-- Model of Python `d.keys()` (as a list, in insertion order). -/
def dictKeys {α : Type} (xs : PyDict α) : List String :=
  xs.map Prod.fst

@[simp]
theorem alistLookup_nil {α : Type} (k : String) :
    alistLookup ([] : PyDict α) k = none := rfl

@[simp]
theorem alistLookup_cons {α : Type} (k k' : String) (v : α) (rest : PyDict α) :
    alistLookup ((k', v) :: rest) k =
      if k = k' then some v else alistLookup rest k := rfl

theorem alistLookup_insert {α : Type} (xs : PyDict α) (k k' : String) (v : α) :
    alistLookup (alistInsert xs k v) k' =
      if k' = k then some v else alistLookup xs k' := by
  induction xs with
  | nil =>
      by_cases h : k' = k <;> simp [alistInsert, h]
  | cons kv rest ih =>
      obtain ⟨k0, v0⟩ := kv
      by_cases hk : k = k0
      · subst hk
        by_cases h : k' = k <;> simp [alistInsert, h]
      · by_cases h : k' = k0
        · subst h
          simp [alistInsert, hk, Ne.symm hk]
        · simp [alistInsert, hk, h, ih]

theorem alistLookup_eq_none_of_not_mem {α : Type} (xs : PyDict α) (k : String)
    (h : k ∉ dictKeys xs) : alistLookup xs k = none := by
  induction xs with
  | nil => rfl
  | cons kv rest ih =>
      simp only [dictKeys, List.map_cons, List.mem_cons] at h
      push_neg at h
      simp [alistLookup, h.1, ih (by simpa [dictKeys] using h.2)]

theorem mem_dictKeys_of_lookup {α : Type} (xs : PyDict α) (k : String) (v : α)
    (h : alistLookup xs k = some v) : k ∈ dictKeys xs := by
  induction xs with
  | nil => simp [alistLookup] at h
  | cons kv rest ih =>
      obtain ⟨k0, v0⟩ := kv
      by_cases hk : k = k0
      · simp [dictKeys, hk]
      · simp only [alistLookup_cons, if_neg hk] at h
        simp [dictKeys, List.mem_cons]
        exact Or.inr (by simpa [dictKeys] using ih h)

/-- Lookup in `dictUpdate d l` is lookup in `l` first (for duplicate-free
`l`, as produced by iterating a Python dict), falling back to `d`. -/
theorem alistLookup_dictUpdate {α : Type} (l d : PyDict α) (k : String)
    (hl : (dictKeys l).Nodup) :
    alistLookup (dictUpdate d l) k =
      ((alistLookup l k).rec (alistLookup d k) (fun v => some v) : Option α) := by
  induction l generalizing d with
  | nil => simp [dictUpdate, alistLookup]
  | cons kv rest ih =>
      obtain ⟨k0, v0⟩ := kv
      simp only [dictKeys, List.map_cons, List.nodup_cons] at hl
      have step : dictUpdate d ((k0, v0) :: rest) =
          dictUpdate (alistInsert d k0 v0) rest := rfl
      rw [step, ih _ (by simpa [dictKeys] using hl.2)]
      by_cases hk : k = k0
      · subst hk
        have hnone : alistLookup rest k = none :=
          alistLookup_eq_none_of_not_mem rest k (by simpa [dictKeys] using hl.1)
        simp [hnone, alistLookup_insert]
      · cases hrest : alistLookup rest k with
        | none => simp [hrest, alistLookup_insert, hk, alistLookup]
        | some v => simp [hrest, alistLookup, hk]

/-- Restatement of `alistLookup_dictUpdate` for the case where the key is
bound in the updating dict. -/
theorem alistLookup_dictUpdate_of_mem {α : Type} (l d : PyDict α) (k : String)
    (v : α) (hl : (dictKeys l).Nodup) (h : alistLookup l k = some v) :
    alistLookup (dictUpdate d l) k = some v := by
  rw [alistLookup_dictUpdate l d k hl, h]

/-- Restatement of `alistLookup_dictUpdate` for the case where the key is
absent from the updating dict. -/
theorem alistLookup_dictUpdate_of_not_mem {α : Type} (l d : PyDict α)
    (k : String) (hl : (dictKeys l).Nodup) (h : alistLookup l k = none) :
    alistLookup (dictUpdate d l) k = alistLookup d k := by
  rw [alistLookup_dictUpdate l d k hl, h]

/-- Inserting a fresh key into a dict appends the pair at the end. -/
theorem alistInsert_eq_append {α : Type} (acc : PyDict α) (k : String) (v : α)
    (hk : k ∉ dictKeys acc) : alistInsert acc k v = acc ++ [(k, v)] := by
  induction acc with
  | nil => rfl
  | cons kv' rest' ih =>
      obtain ⟨k1, v1⟩ := kv'
      simp only [dictKeys, List.map_cons, List.mem_cons] at hk
      push_neg at hk
      simp [alistInsert, hk.1, ih (by simpa [dictKeys] using hk.2)]

theorem dictUpdate_eq_append {α : Type} :
    ∀ (l acc : PyDict α), (dictKeys l).Nodup →
      (∀ k, k ∈ dictKeys l → k ∉ dictKeys acc) →
      dictUpdate acc l = acc ++ l := by
  intro l
  induction l with
  | nil => intro acc _ _; simp [dictUpdate]
  | cons kv rest ih =>
      intro acc hnd hdisj
      obtain ⟨k0, v0⟩ := kv
      simp only [dictKeys, List.map_cons, List.nodup_cons] at hnd
      have step : dictUpdate acc ((k0, v0) :: rest) =
          dictUpdate (alistInsert acc k0 v0) rest := rfl
      have hk0 : k0 ∉ dictKeys acc := hdisj k0 (by simp [dictKeys])
      rw [step, alistInsert_eq_append acc k0 v0 hk0,
        ih (acc ++ [(k0, v0)]) (by simpa [dictKeys] using hnd.2) ?_]
      · simp
      · intro k hk
        have hka : k ∉ dictKeys acc := hdisj k (by
          simp only [dictKeys, List.map_cons, List.mem_cons]
          exact Or.inr hk)
        have hkk0 : k ≠ k0 := fun h => hnd.1 (h ▸ hk)
        simp only [dictKeys, List.map_append, List.map_cons, List.map_nil,
          List.mem_append, List.mem_singleton]
        push_neg
        exact ⟨fun h => hka (by simpa [dictKeys] using h), hkk0⟩

/-- Building a fresh dict from a duplicate-free pair list reproduces the
list itself. -/
theorem pyDictOfList_eq_self {α : Type} (l : List (String × α))
    (hl : (dictKeys l).Nodup) : pyDictOfList l = l := by
  have := dictUpdate_eq_append l [] hl (by intro k _ hk; simp [dictKeys] at hk)
  simpa [pyDictOfList] using this

/-! ## Python scalar values

`PyVal` models the values a settings store can hold; `PyFloat` models Python
`float` values.  Finite floats are kept as exact decimal rationals: no claim
studied here depends on binary64 rounding, only on which strings Python's
`float()` accepts and on the special values `inf` and `nan`. -/

/-- Model of a Python `float` value. -/
inductive PyFloat : Type where
  | finite (q : ℚ)
  | inf
  | neginf
  | nan
deriving DecidableEq

/-- Model of a Python value stored in (or produced from) a settings store:
a string, an `int`, a `float`, a `bool`, a `list`, or a nested `dict`. -/
inductive PyVal : Type where
  | str (s : String)
  | int (n : Int)
  | float (f : PyFloat)
  | bool (b : Bool)
  | list (xs : List PyVal)
  | dict (xs : List (String × PyVal))

/-! ## Python `int()` and `float()` on strings

The source calls the built-in conversions `int(item)` and `float(item)`;
the following definitions model their behaviour on `str` arguments
(ASCII whitespace and digits; CPython additionally accepts some Unicode
characters, which no configuration file in this repository uses).
Underscore placement follows PEP 515: a single `_` may appear between two
digits. -/

/-- Characters stripped by Python's numeric conversions (ASCII part of
`Py_ISSPACE`). -/
def isPySpace (c : Char) : Bool :=
  c = ' ' || c = '\t' || c = '\n' || c = '\r' ||
    c = Char.ofNat 11 || c = Char.ofNat 12

/-- Strips leading and trailing whitespace. -/
def stripChars (cs : List Char) : List Char :=
  ((cs.dropWhile isPySpace).reverse.dropWhile isPySpace).reverse

/-- Consumes an optional sign, returning whether it was `-`. -/
def parseSign : List Char → Bool × List Char
  | '+' :: cs => (false, cs)
  | '-' :: cs => (true, cs)
  | cs => (false, cs)

/-- Consumes the longest run matching `(["_"] digit)*` after an initial
digit has been read, returning the accumulated value, the number of digits
consumed so far, and the rest of the input. -/
def digitTail (v n : Nat) : List Char → Nat × Nat × List Char
  | '_' :: c2 :: cs2 =>
      if c2.isDigit then digitTail (v * 10 + (c2.toNat - 48)) (n + 1) cs2
      else (v, n, '_' :: c2 :: cs2)
  | c :: cs =>
      if c.isDigit then digitTail (v * 10 + (c.toNat - 48)) (n + 1) cs
      else (v, n, c :: cs)
  | [] => (v, n, [])

/-- Consumes a `digitpart` (`digit (["_"] digit)*`); fails when the input
does not start with a digit. -/
def digitpart : List Char → Option (Nat × Nat × List Char)
  | [] => none
  | c :: cs =>
      if c.isDigit then some (digitTail (c.toNat - 48) 1 cs) else none

/-- Model of Python `int(s)` for `str` arguments (base 10): optional
whitespace, optional sign, then a full-width `digitpart`. -/
def pyIntOfString (s : String) : Option Int :=
  let cs := stripChars s.toList
  let sc := parseSign cs
  match digitpart sc.2 with
  | some (v, _, []) => some (if sc.1 then -(v : Int) else (v : Int))
  | _ => none

/-- Consumes the mantissa of a float literal
(`digitpart ["." [digitpart]] | "." digitpart`), returning the mantissa
read as an integer, the number of fractional digits, and the rest. -/
def parseMantissa (cs : List Char) : Option (Nat × Nat × List Char) :=
  match digitpart cs with
  | some (iv, _, rest) =>
      match rest with
      | '.' :: rest2 =>
          match digitpart rest2 with
          | some (fv, fc, rest3) => some (iv * 10 ^ fc + fv, fc, rest3)
          | none => some (iv, 0, rest2)
      | _ => some (iv, 0, rest)
  | none =>
      match cs with
      | '.' :: rest2 =>
          match digitpart rest2 with
          | some (fv, fc, rest3) => some (fv, fc, rest3)
          | none => none
      | _ => none

/-- Consumes an exponent (`("e"|"E") [sign] digitpart`). -/
def parseExponent (cs : List Char) : Option (Int × List Char) :=
  match cs with
  | c :: rest =>
      if c = 'e' || c = 'E' then
        let sc := parseSign rest
        match digitpart sc.2 with
        | some (ev, _, rest3) =>
            some ((if sc.1 then -(ev : Int) else (ev : Int)), rest3)
        | none => none
      else none
  | [] => none

/-- Scales an exact mantissa by a power of ten. -/
def decScale (q : ℚ) (e : Int) : ℚ :=
  if 0 ≤ e then q * (10 : ℚ) ^ e.toNat else q / (10 : ℚ) ^ (-e).toNat

/-- Parses the non-special part of a float literal.  (CPython clamps huge
exponents to `inf`/`0.0`; the exact rational value is kept here, which
agrees on acceptance and is all the studied properties depend on.) -/
def parseDecimal (neg : Bool) (cs : List Char) : Option PyFloat :=
  match parseMantissa cs with
  | none => none
  | some (m, fc, rest) =>
      let base : ℚ := (m : ℚ) / (10 : ℚ) ^ fc
      match rest with
      | [] => some (.finite (if neg then -base else base))
      | _ =>
          match parseExponent rest with
          | some (e, []) =>
              some (.finite
                (if neg then -(decScale base e) else decScale base e))
          | _ => none

/-- Model of Python `float(s)` for `str` arguments: optional whitespace and
sign, then `inf`/`infinity`/`nan` (case-insensitive) or a decimal literal. -/
def pyFloatOfString (s : String) : Option PyFloat :=
  let cs := stripChars s.toList
  let sc := parseSign cs
  let low := sc.2.map Char.toLower
  if low = "inf".toList || low = "infinity".toList then
    some (if sc.1 then .neginf else .inf)
  else if low = "nan".toList then some .nan
  else parseDecimal sc.1 sc.2

/-! ## Python `item.split(', ')` and `', ' in item`

`_typify` splits on the exact two-character separator `", "`.  `findSep`
locates the first occurrence; `pySplitCS` is `str.split(', ')` on character
lists. -/

/-- Finds the first occurrence of the separator `", "`, returning the
characters before and after it. -/
def findSep : List Char → Option (List Char × List Char)
  | [] => none
  | c :: rest =>
      if c = ',' ∧ rest.head? = some ' ' then some ([], rest.tail)
      else (findSep rest).map (fun pp => (c :: pp.1, pp.2))

theorem findSep_length :
    ∀ (cs : List Char) (pre post : List Char),
      findSep cs = some (pre, post) →
      cs.length = pre.length + 2 + post.length := by
  intro cs
  induction cs with
  | nil => intro pre post h; simp [findSep] at h
  | cons c rest ih =>
      intro pre post h
      by_cases hc : c = ',' ∧ rest.head? = some ' '
      · rw [findSep, if_pos hc] at h
        simp only [Option.some.injEq, Prod.mk.injEq] at h
        obtain ⟨rfl, rfl⟩ := h
        cases rest with
        | nil => simp at hc
        | cons a b => simp; omega
      · rw [findSep, if_neg hc] at h
        cases hf : findSep rest with
        | none => rw [hf] at h; exact Option.noConfusion h
        | some pp =>
            rw [hf] at h
            simp only [Option.map_some', Option.some.injEq] at h
            obtain ⟨pre0, post0⟩ := pp
            have hrest := ih pre0 post0 hf
            obtain ⟨rfl, rfl⟩ : pre = c :: pre0 ∧ post = post0 := by
              have h1 := congrArg Prod.fst h
              have h2 := congrArg Prod.snd h
              simp at h1 h2
              exact ⟨h1.symm, h2.symm⟩
            simp only [List.length_cons]
            omega

/-- Model of Python `item.split(', ')` on character lists. -/
def pySplitCS (cs : List Char) : List (List Char) :=
  match h : findSep cs with
  | none => [cs]
  | some (pre, post) => pre :: pySplitCS post
termination_by cs.length
decreasing_by
  have := findSep_length cs pre post h
  omega

theorem pySplitCS_piece_le_aux :
    ∀ (n : Nat) (cs : List Char), cs.length ≤ n →
      ∀ p ∈ pySplitCS cs, p.length ≤ cs.length := by
  intro n
  induction n with
  | zero =>
      intro cs hcs p hp
      have hnil : cs = [] := List.length_eq_zero.mp (Nat.le_zero.mp hcs)
      subst hnil
      rw [pySplitCS] at hp
      split at hp
      · rcases List.mem_cons.mp hp with rfl | h0
        · exact le_refl _
        · simp at h0
      · next pre post hf => simp [findSep] at hf
  | succ n ih =>
      intro cs hcs p hp
      rw [pySplitCS] at hp
      split at hp
      · rcases List.mem_cons.mp hp with rfl | h0
        · exact le_refl _
        · simp at h0
      · next pre post hf =>
          have hlen := findSep_length cs pre post hf
          rcases List.mem_cons.mp hp with rfl | hp'
          · omega
          · have := ih post (by omega) p hp'
            omega

theorem pySplitCS_piece_le (cs : List Char) :
    ∀ p ∈ pySplitCS cs, p.length ≤ cs.length :=
  pySplitCS_piece_le_aux cs.length cs (le_refl _)

/-- Every piece is strictly shorter than the input when the separator
occurs in it. -/
theorem pySplitCS_piece_lt (cs : List Char) (hsep : (findSep cs).isSome) :
    ∀ p ∈ pySplitCS cs, p.length < cs.length := by
  intro p hp
  obtain ⟨⟨pre, post⟩, hf⟩ := Option.isSome_iff_exists.mp hsep
  have hlen := findSep_length cs pre post hf
  rw [pySplitCS] at hp
  split at hp
  · next hnone => rw [hf] at hnone; cases hnone
  · next pre' post' hf' =>
      rw [hf] at hf'
      obtain ⟨rfl, rfl⟩ : pre = pre' ∧ post = post' := by
        simpa [Prod.ext_iff] using hf'
      rcases List.mem_cons.mp hp with rfl | hp'
      · omega
      · have := pySplitCS_piece_le post p hp'
        omega

/-! ## The type inferencer

Embeds `_typify` from src/src/bobbie/utilities.py (the identical conversion
is used by src/bobbie/core.py through `camina.typify`):

    try int; except: try float; except:
      lower in \x7b'true','yes'\x7d -> True; lower in \x7b'false','no'\x7d -> False;
      elif ', ' in item: [_typify(i) for i in item.split(', ')]
      else: item unchanged

Non-string values are returned unchanged. -/

/-- Model of `item.lower()` (ASCII case folding, which covers every
keyword compared against). -/
def pyLower (cs : List Char) : String :=
  String.mk (cs.map Char.toLower)

/-- String branch of `_typify`, by recursion on the character list. -/
def typifyChars (cs : List Char) : PyVal :=
  let s := String.mk cs
  match pyIntOfString s with
  | some n => .int n
  | none =>
      match pyFloatOfString s with
      | some f => .float f
      | none =>
          if pyLower cs = "true" ∨ pyLower cs = "yes" then .bool true
          else if pyLower cs = "false" ∨ pyLower cs = "no" then .bool false
          else if hsep : (findSep cs).isSome then
            .list ((pySplitCS cs).attach.map
              (fun p => typifyChars p.1))
          else .str s
termination_by cs.length
decreasing_by
  exact pySplitCS_piece_lt cs hsep p.1 p.2

/-- Embeds `_typify` (`camina.typify`): converts a string to an
`int`/`float`/`bool`/`list` when possible, and returns every non-string
value unchanged. -/
def _typify : PyVal → PyVal
  | .str s => typifyChars s.toList
  | v => v

/-- Unfolding lemma for `pySplitCS` without the dependent match. -/
theorem pySplitCS_eq (cs : List Char) :
    pySplitCS cs =
      match findSep cs with
      | none => [cs]
      | some (pre, post) => pre :: pySplitCS post := by
  rw [pySplitCS]
  cases hf : findSep cs with
  | none => rfl
  | some pp => obtain ⟨pre, post⟩ := pp; rfl

/-- Unfolding lemma for `typifyChars` without the dependent if and with the
membership-annotated map replaced by a plain map. -/
theorem typifyChars_eq (cs : List Char) :
    typifyChars cs =
      match pyIntOfString (String.mk cs) with
      | some n => .int n
      | none =>
          match pyFloatOfString (String.mk cs) with
          | some f => .float f
          | none =>
              if pyLower cs = "true" ∨ pyLower cs = "yes" then .bool true
              else if pyLower cs = "false" ∨ pyLower cs = "no" then
                .bool false
              else if (findSep cs).isSome then
                .list ((pySplitCS cs).map (fun p => typifyChars p))
              else .str (String.mk cs) := by
  rw [typifyChars]
  cases h1 : pyIntOfString (String.mk cs) with
  | some n => rfl
  | none =>
      cases h2 : pyFloatOfString (String.mk cs) with
      | some f => rfl
      | none =>
          by_cases h3 : pyLower cs = "true" ∨ pyLower cs = "yes"
          · simp only [if_pos h3]
          · rw [if_neg h3, if_neg h3]
            by_cases h4 : pyLower cs = "false" ∨ pyLower cs = "no"
            · simp only [if_pos h4]
            · rw [if_neg h4, if_neg h4]
              by_cases h5 : (findSep cs).isSome
              · rw [dif_pos h5, if_pos h5]
                have hmap : (pySplitCS cs).attach.map (fun p => typifyChars p.1)
                    = (pySplitCS cs).map (fun p => typifyChars p) :=
                  List.attach_map_coe _ _
                rw [hmap]
              · rw [dif_neg h5, if_neg h5]

/-- Case analysis for the result of `typifyChars`: a converted scalar, a
list, or the original string unchanged. -/
theorem typifyChars_cases (cs : List Char) :
    (∃ n, typifyChars cs = .int n) ∨ (∃ f, typifyChars cs = .float f) ∨
      (∃ b, typifyChars cs = .bool b) ∨ (∃ xs, typifyChars cs = .list xs) ∨
      typifyChars cs = .str (String.mk cs) := by
  rw [typifyChars_eq]
  cases h1 : pyIntOfString (String.mk cs) with
  | some n => exact Or.inl ⟨n, rfl⟩
  | none =>
      cases h2 : pyFloatOfString (String.mk cs) with
      | some f => exact Or.inr (Or.inl ⟨f, rfl⟩)
      | none =>
          by_cases h3 : pyLower cs = "true" ∨ pyLower cs = "yes"
          · rw [if_pos h3]
            exact Or.inr (Or.inr (Or.inl ⟨true, rfl⟩))
          · rw [if_neg h3]
            by_cases h4 : pyLower cs = "false" ∨ pyLower cs = "no"
            · rw [if_pos h4]
              exact Or.inr (Or.inr (Or.inl ⟨false, rfl⟩))
            · rw [if_neg h4]
              by_cases h5 : (findSep cs).isSome
              · rw [if_pos h5]
                exact Or.inr (Or.inr (Or.inr (Or.inl ⟨_, rfl⟩)))
              · rw [if_neg h5]
                exact Or.inr (Or.inr (Or.inr (Or.inr rfl)))

/-! ### Evaluations of `_typify` at the concrete inputs used by the claims -/

theorem typify_eval_500 : typifyChars "500".toList = .int 500 := by
  rw [typifyChars_eq]
  have h1 : pyIntOfString (String.mk "500".toList) = some 500 := by decide
  rw [h1]

theorem typify_eval_true : typifyChars "true".toList = .bool true := by
  rw [typifyChars_eq]
  have h1 : pyIntOfString (String.mk "true".toList) = none := by decide
  have h2 : pyFloatOfString (String.mk "true".toList) = none := by decide
  rw [h1, h2, if_pos (by decide)]

theorem typify_eval_fmt : typifyChars "%.4f".toList = .str "%.4f" := by
  rw [typifyChars_eq]
  have h1 : pyIntOfString (String.mk "%.4f".toList) = none := by decide
  have h2 : pyFloatOfString (String.mk "%.4f".toList) = none := by decide
  rw [h1, h2, if_neg (by decide), if_neg (by decide), if_neg (by decide)]
  rfl

theorem typify_eval_3 : typifyChars ['3'] = .int 3 := by
  rw [typifyChars_eq]
  have h1 : pyIntOfString (String.mk ['3']) = some 3 := by decide
  rw [h1]

theorem typify_eval_4 : typifyChars ['4'] = .int 4 := by
  rw [typifyChars_eq]
  have h1 : pyIntOfString (String.mk ['4']) = some 4 := by decide
  rw [h1]

theorem split_eval_34 : pySplitCS "3, 4".toList = [['3'], ['4']] := by
  have hf : findSep "3, 4".toList = some (['3'], ['4']) := by decide
  have hf2 : findSep ['4'] = none := by decide
  rw [pySplitCS_eq, hf]
  show ['3'] :: pySplitCS ['4'] = _
  rw [pySplitCS_eq, hf2]

theorem typify_eval_34 :
    typifyChars "3, 4".toList = .list [.int 3, .int 4] := by
  rw [typifyChars_eq]
  have h1 : pyIntOfString (String.mk "3, 4".toList) = none := by decide
  have h2 : pyFloatOfString (String.mk "3, 4".toList) = none := by decide
  rw [h1, h2, if_neg (by decide), if_neg (by decide), if_pos (by decide),
    split_eval_34]
  simp only [List.map]
  rw [typify_eval_3, typify_eval_4]

theorem typify_eval_nan : typifyChars "nan".toList = .float .nan := by
  rw [typifyChars_eq]
  have h1 : pyIntOfString (String.mk "nan".toList) = none := by decide
  have h2 : pyFloatOfString (String.mk "nan".toList) = some .nan := by decide
  rw [h1, h2]

/-! ## Python `==` on stored values

Needed to state the type-inference idempotence property the way the spec
states it (`infer(infer(x)) == infer(x)`).  Python compares `bool`, `int`
and `float` by numeric value across types, and `nan` compares unequal to
everything including itself.  (CPython's identity shortcut inside container
comparisons does not arise here: the embedding has no object identity and
the compared inference results are freshly built values.) -/

/-- Numeric view of a Python value (`bool` counts as 0/1). -/
def pyNumVal : PyVal → Option PyFloat
  | .int n => some (.finite (n : ℚ))
  | .bool b => some (.finite (if b then 1 else 0))
  | .float f => some f
  | _ => none

/-- Python `==` on two float values. -/
def pyFloatEq : PyFloat → PyFloat → Bool
  | .finite a, .finite b => decide (a = b)
  | .inf, .inf => true
  | .neginf, .neginf => true
  | _, _ => false

/-- Model of Python `==` on stored values. -/
def pyEq (a b : PyVal) : Bool :=
  match a, b with
  | .str x, .str y => decide (x = y)
  | .list xs, .list ys =>
      decide (xs.length = ys.length) &&
        (xs.zip ys).attach.all (fun p => pyEq p.1.1 p.1.2)
  | .dict xs, .dict ys =>
      decide (xs.length = ys.length) &&
        xs.attach.all (fun kv =>
          match alistLookup ys kv.1.1 with
          | some w => pyEq kv.1.2 w
          | none => false)
  | x, y =>
      match pyNumVal x, pyNumVal y with
      | some fx, some fy => pyFloatEq fx fy
      | _, _ => false
termination_by sizeOf a
decreasing_by
  · obtain ⟨⟨x, y⟩, hp⟩ := p
    have hx := (List.of_mem_zip hp).1
    have hlt := List.sizeOf_lt_of_mem hx
    simp only [PyVal.list.sizeOf_spec]
    omega
  · obtain ⟨⟨a, b⟩, hkv⟩ := kv
    have hlt := List.sizeOf_lt_of_mem hkv
    simp only [Prod.mk.sizeOf_spec] at hlt
    simp only [PyVal.dict.sizeOf_spec]
    omega

/-! ## Term matchers (src/bobbie/parsers.py)

The three matchers return the (possibly excised) matching string together
with the matched term, or an explicit `none` when no term matches.  The
identical matchers also appear in src/src/bobbie/filters.py with the
`camina` string helpers replaced by the local `_drop_prefix_from_str` and
`_drop_suffix_from_str`, whose behaviour `dropPrefixStr`/`dropSuffixStr`
model as well. -/

/-- Model of Python `item.startswith(pre)` (character-based, like Python's
string indexing). -/
def strStartsWith (item pre : String) : Bool :=
  pre.toList.isPrefixOf item.toList

/-- Model of Python `item.endswith(suf)`. -/
def strEndsWith (item suf : String) : Bool :=
  suf.toList.isSuffixOf item.toList

/-- Model of the Python slice `item[n:]`. -/
def strDrop (item : String) (n : Nat) : String :=
  String.mk (item.toList.drop n)

/-- Model of the Python slice `item[:-n]` / `str.removesuffix` tail cut. -/
def strDropRight (item : String) (n : Nat) : String :=
  String.mk (item.toList.take (item.toList.length - n))

/-- Models the helper camina.drop_prefix (src/src/bobbie/utilities.py
`_drop_prefix_from_str` with the default empty divider): remove `pre` from
the front of `item` when present. -/
def dropPrefixStr (item pre : String) : String :=
  if strStartsWith item pre then strDrop item pre.toList.length else item

/-- Models `camina.drop_suffix_from_str` (src/src/bobbie/utilities.py
`_drop_suffix_from_str` with the default empty divider): remove `suf` from
the end of `item` when present. -/
def dropSuffixStr (item suf : String) : String :=
  if strEndsWith item suf then strDropRight item suf.toList.length else item

/-- Embeds `match_all`: the first term equal to `item` matches; `excise` and
`divider` are accepted but unused, as in the source. -/
def match_all (item : String) (terms : List String) (excise : Bool)
    (divider : String) : Option (String × String) :=
  match terms with
  | [] => none
  | term :: rest =>
      if item = term then some (item, term)
      else match_all item rest excise divider

/-- Embeds match_prefix: for each term in declaration order, build
`term + divider` and match it at the front of `item`. -/
def match_prefix (item : String) (terms : List String) (excise : Bool)
    (divider : String) : Option (String × String) :=
  match terms with
  | [] => none
  | term :: rest =>
      let substring := term ++ divider
      if strStartsWith item substring then
        if excise then some (dropPrefixStr item substring, term)
        else some (item, term)
      else match_prefix item rest excise divider

/-- Embeds `match_suffix`: for each term in declaration order, build
`divider + term` and match it at the end of `item`. -/
def match_suffix (item : String) (terms : List String) (excise : Bool)
    (divider : String) : Option (String × String) :=
  match terms with
  | [] => none
  | term :: rest =>
      let substring := divider ++ term
      if strEndsWith item substring then
        if excise then some (dropSuffixStr item substring, term)
        else some (item, term)
      else match_suffix item rest excise divider

/-- The three matching modes, written as the strings all, prefix and
suffix in the source. -/
inductive MatchOptions : Type where
  | all
  | prefixMode
  | suffixMode
deriving DecidableEq

/-- Models the source's `globals()[f'match_...']` dispatch on the mode. -/
def matcherFor : MatchOptions → String → List String → Bool → String →
    Option (String × String)
  | .all => match_all
  | .prefixMode => match_prefix
  | .suffixMode => match_suffix

/-! ## View projectors (src/bobbie/parsers.py) -/

/-- A section of a settings store. -/
abbrev Sec : Type := PyDict PyVal

/-- The two-level contents of a settings store. -/
abbrev Store : Type := PyDict Sec

/-- The six return shapes, written `'sections'`, `'contents'`, `'keys'`,
`'kinds'`, `'section_keys'`, `'section_kinds'` in the source. -/
inductive ReturnsOptions : Type where
  | sections
  | contents
  | keys
  | kinds
  | section_keys
  | section_kinds
deriving DecidableEq

/-- Embeds `get_sections`: a dict from (possibly excised) matching outer key
to the unchanged value. -/
def get_sections {α : Type} (settings : PyDict α) (terms : List String)
    (m : MatchOptions) (excise : Bool) (divider : String) : PyDict α :=
  pyDictOfList (settings.filterMap (fun kv =>
    match matcherFor m kv.1 terms excise divider with
    | some nk => some (nk.1, kv.2)
    | none => none))

/-- Embeds `get_keys`: the list of (possibly excised) matching keys, in
store order. -/
def get_keys {α : Type} (settings : PyDict α) (terms : List String)
    (m : MatchOptions) (excise : Bool) (divider : String) : List String :=
  settings.filterMap (fun kv =>
    (matcherFor m kv.1 terms excise divider).map Prod.fst)

/-- Embeds `get_kinds`: a dict from (possibly excised) matching key to the
term it matched. -/
def get_kinds {α : Type} (settings : PyDict α) (terms : List String)
    (m : MatchOptions) (excise : Bool) (divider : String) : PyDict String :=
  pyDictOfList (settings.filterMap (fun kv =>
    matcherFor m kv.1 terms excise divider))

/-- Embeds `get_contents`: sections having at least one matching inner key,
restricted to their matching inner keys (possibly excised). -/
def get_contents (settings : Store) (terms : List String) (m : MatchOptions)
    (excise : Bool) (divider : String) : Store :=
  pyDictOfList (settings.filterMap (fun ns =>
    let inner := ns.2.filterMap (fun kv =>
      match matcherFor m kv.1 terms excise divider with
      | some nk => some (nk.1, kv.2)
      | none => none)
    if inner.isEmpty then none else some (ns.1, pyDictOfList inner)))

/-- Embeds `get_section_keys`: per-section lists of matching inner keys;
sections with no matching inner key are omitted. -/
def get_section_keys (settings : Store) (terms : List String)
    (m : MatchOptions) (excise : Bool) (divider : String) :
    PyDict (List String) :=
  pyDictOfList (settings.filterMap (fun ns =>
    let ks := get_keys ns.2 terms m excise divider
    if ks.isEmpty then none else some (ns.1, ks)))

/-- Embeds `get_section_kinds`: per-section key-to-term dicts; sections with
no matching inner key are omitted. -/
def get_section_kinds (settings : Store) (terms : List String)
    (m : MatchOptions) (excise : Bool) (divider : String) :
    PyDict (PyDict String) :=
  pyDictOfList (settings.filterMap (fun ns =>
    let ks := get_kinds ns.2 terms m excise divider
    if ks.isEmpty then none else some (ns.1, ks)))

/-- The structure computed by `parse` before the `accumulate` step: a
mapping for five of the shapes, a list for `keys`. -/
def parseMatches (settings : Store) (terms : List String) (m : MatchOptions)
    (returns : ReturnsOptions) (excise : Bool) (divider : String) :
    PyDict PyVal ⊕ List PyVal :=
  match returns with
  | .sections =>
      .inl ((get_sections settings terms m excise divider).map
        (fun kv => (kv.1, PyVal.dict kv.2)))
  | .contents =>
      .inl ((get_contents settings terms m excise divider).map
        (fun kv => (kv.1, PyVal.dict kv.2)))
  | .keys => .inr ((get_keys settings terms m excise divider).map .str)
  | .kinds =>
      .inl ((get_kinds settings terms m excise divider).map
        (fun kv => (kv.1, PyVal.str kv.2)))
  | .section_keys =>
      .inl ((get_section_keys settings terms m excise divider).map
        (fun kv => (kv.1, PyVal.list (kv.2.map .str))))
  | .section_kinds =>
      .inl ((get_section_kinds settings terms m excise divider).map
        (fun kv => (kv.1, PyVal.dict (kv.2.map
          (fun ab => (ab.1, PyVal.str ab.2))))))

/-- Embeds `parse` (src/bobbie/parsers.py; src/src/bobbie/parsers.py is
identical apart from spelling `list(matches.keys())[0]` as
`next(iter(matches.keys()))`).  The dispatch between a passed `parser` and
explicit arguments is argument plumbing handled at the call sites; the
matcher/shape arguments are taken directly.  With `accumulate` the full
computed structure is returned; otherwise the first entry, and on an empty
match set the `IndexError` that `matches[list(matches.keys())[0]]` or
`matches[0]` raises. -/
def parse (settings : Store) (terms : List String) (m : MatchOptions)
    (returns : ReturnsOptions) (excise accumulate : Bool)
    (divider : String) : Except String PyVal :=
  match parseMatches settings terms m returns excise divider with
  | .inl d =>
      if accumulate then .ok (.dict d)
      else
        match d with
        | [] => .error "IndexError: list index out of range"
        | kv :: _ => .ok kv.2
  | .inr l =>
      if accumulate then .ok (.list l)
      else
        match l with
        | [] => .error "IndexError: list index out of range"
        | x :: _ => .ok x

/-! ## The Parser descriptor (src/src/bobbie/extensions.py) -/

/-- Embeds the `Parser` dataclass: an immutable bundle of matcher and
projector configuration. -/
structure Parser : Type where
  terms : List String
  scope : MatchOptions := .all
  returns : ReturnsOptions := .sections
  excise : Bool := true
  accumulate : Bool := true
  divider : String := ""

/-- Embeds `Parser.__get__`: reading the descriptor recomputes
`parse(settings, parse=self)` against the current store. -/
def parserGet (p : Parser) (settings : Store) : Except String PyVal :=
  parse settings p.terms p.scope p.returns p.excise p.accumulate p.divider

/-- State-passing form of `Parser.__get__`: the read path performs no write
to the store, so the embedded state component is returned unchanged. -/
def parserGetS (p : Parser) (settings : Store) :
    Except String PyVal × Store :=
  (parserGet p settings, settings)

/-- Embeds `Settings.__setitem__` (src/bobbie/core.py; identical in
src/src/bobbie/core.py): `self.contents[key].update(value)` when the key
exists, else `self.contents[key] = value`. -/
def settingsSetitem (contents : Store) (key : String) (value : Sec) :
    Store :=
  match alistLookup contents key with
  | some sec => alistInsert contents key (dictUpdate sec value)
  | none => alistInsert contents key value

/-- Embeds `Parser.__set__`: resolve the outer key as the first store key
that `get_keys` (exact matching, excision disabled) produces, falling back
to the first declared term; then assign through `Settings.__setitem__`.
An empty `terms` tuple would make the fallback `self.terms[0]` raise
`IndexError`. -/
def parserSet (p : Parser) (contents : Store) (value : Sec) :
    Except String Store :=
  let keys := get_keys contents p.terms .all false ""
  match keys with
  | key :: _ => .ok (settingsSetitem contents key value)
  | [] =>
      match p.terms with
      | t :: _ => .ok (settingsSetitem contents t value)
      | [] => .error "IndexError: tuple index out of range"

/-! ## Settings construction (src/bobbie/core.py and src/src/bobbie/core.py) -/

/-- Value transformation applied by `Settings._infer_types` to each
top-level value: dict values get `_typify` on each of their values, other
values get `_typify` directly. -/
def inferValue : PyVal → PyVal
  | .dict inner =>
      .dict (pyDictOfList (inner.map (fun ik => (ik.1, _typify ik.2))))
  | v => _typify v

/-- Embeds `Settings._infer_types`: rebuilds the contents dict with
`camina.typify` applied to every value one level inside sections. -/
def _infer_types (contents : PyDict PyVal) : PyDict PyVal :=
  pyDictOfList (contents.map (fun kv => (kv.1, inferValue kv.2)))

/-- Embeds `Settings._add_defaults` (src/bobbie/core.py):
`new_contents = self.defaults; new_contents.update(contents)`.  The update
happens at the top level only. -/
def _add_defaults (defaults contents : PyDict PyVal) : PyDict PyVal :=
  dictUpdate defaults contents

/-- Embeds the value pipeline of `Settings.__post_init__`
(src/bobbie/core.py): type inference over the loaded contents first (when
`infer_types` is set), then `_add_defaults` merges the stored defaults
underneath.  (The source's preceding `if not (self.contents,
MutableMapping)` test is a truthy two-element tuple, so its branch never
runs and is omitted.) -/
def settings_post_init (contents defaults : PyDict PyVal)
    (infer_types : Bool) : PyDict PyVal :=
  let c1 := if infer_types then _infer_types contents else contents
  _add_defaults defaults c1

/-- Embeds `Settings._integrate_defaults` (src/src/bobbie/core.py): the
same top-level `new_contents = self.defaults; new_contents.update(contents)`
formula, against the class-level `defaults` attribute. -/
def _integrate_defaults (defaults contents : Store) : Store :=
  dictUpdate defaults contents

/-- State-passing embedding of `Settings.__post_init__`
(src/src/bobbie/core.py) with respect to the class-level `defaults` dict:
`new_contents = self.defaults` aliases that dict, `update` mutates it in
place, and the result is installed as the instance contents.  Returns
(instance contents, class defaults after construction); both components are
the one object the source leaves behind. -/
def postInitShared (defaults contents : Store) : Store × Store :=
  let u := _integrate_defaults defaults contents
  (u, u)

/-! ## workshop.match_complete (src/bobbie/workshop.py) -/

/-- The module-level attributes that the external `camina` dependency used
by this repository defines and this code base touches: drop_prefix,
`drop_suffix_from_str`, `typify`, `iterify`, `pathlibify`, `Dictionary`,
...).  `camina` defines no module attribute named `terms`, so the lookup
`camina.terms` fails; `caminaTerms` is that lookup's result. -/
def caminaTerms : Option (List String) := none

/-- Embeds `match_complete` from src/bobbie/workshop.py.  Its body is
`any(item == t for t in camina.terms)`: it ignores its own `terms`
parameter and iterates the module attribute `camina.terms`, whose lookup
raises `AttributeError` before any comparison happens. -/
def match_complete (item : String) (terms : List String) :
    Except String Bool :=
  match caminaTerms with
  | none => .error "AttributeError: module camina has no attribute terms"
  | some ts => .ok (ts.any (fun t => item = t))

/-! ## Supporting lemmas about the embedded operations -/

/-- Updating with pairs that do not bind `k` leaves lookup of `k` alone
(no duplicate-freedom needed). -/
theorem alistLookup_dictUpdate_right_none {α : Type} :
    ∀ (l d : PyDict α) (k : String), alistLookup l k = none →
      alistLookup (dictUpdate d l) k = alistLookup d k := by
  intro l
  induction l with
  | nil => intro d k _; rfl
  | cons kv rest ih =>
      intro d k h
      obtain ⟨k0, v0⟩ := kv
      simp only [alistLookup_cons] at h
      by_cases hk : k = k0
      · rw [if_pos hk] at h; cases h
      · rw [if_neg hk] at h
        have step : dictUpdate d ((k0, v0) :: rest) =
            dictUpdate (alistInsert d k0 v0) rest := rfl
        rw [step, ih _ k h, alistLookup_insert, if_neg hk]

theorem dictKeys_map_value {α β : Type} (l : PyDict α) (f : α → β) :
    dictKeys (l.map (fun kv => (kv.1, f kv.2))) = dictKeys l := by
  induction l with
  | nil => rfl
  | cons kv rest ih =>
      simp only [dictKeys, List.map_cons] at ih ⊢
      rw [ih]

theorem alistLookup_map_value {α β : Type} (l : PyDict α)
    (f : α → β) (k : String) :
    alistLookup (l.map (fun kv => (kv.1, f kv.2))) k =
      (alistLookup l k).map f := by
  induction l with
  | nil => rfl
  | cons kv rest ih =>
      obtain ⟨k0, v0⟩ := kv
      by_cases hk : k = k0 <;> simp [alistLookup, hk, ih]

/-- Exact matching never changes the returned key: `match_all` returns the
item itself and the first equal term, whatever `excise` is. -/
theorem match_all_map_fst (item : String) (terms : List String)
    (excise : Bool) (divider : String) :
    ( match_all item terms excise divider).map Prod.fst =
      if item ∈ terms then some item else none := by
  induction terms with
  | nil => simp [match_all]
  | cons t rest ih =>
      by_cases ht : item = t
      · simp [match_all, ht]
      · simp only [match_all, if_neg ht, List.mem_cons]
        rw [ih]
        by_cases hmem : item ∈ rest
        · simp [hmem]
        · simp [hmem, ht]

/-- With exact matching, `get_keys` is the list of store keys that equal
some term, in store order; `excise` and `divider` are irrelevant. -/
theorem get_keys_all (s : Store) (terms : List String) (excise : Bool)
    (divider : String) :
    get_keys s terms .all excise divider =
      (dictKeys s).filter (fun k => decide (k ∈ terms)) := by
  induction s with
  | nil => rfl
  | cons kv rest ih =>
      simp only [get_keys, List.filterMap_cons, dictKeys, List.map_cons,
        List.filter_cons]
      rw [show matcherFor MatchOptions.all = match_all from rfl,
        match_all_map_fst]
      by_cases hmem : kv.1 ∈ terms
      · rw [if_pos hmem, decide_eq_true hmem, if_pos rfl]
        exact congrArg (kv.1 :: ·) (by simpa [get_keys, dictKeys] using ih)
      · rw [if_neg hmem, decide_eq_false hmem,
          if_neg (by simp : ¬((false : Bool) = true))]
        simpa [get_keys, dictKeys] using ih

/-! ## Claim theorems -/

/-- C1 counterexample.  The claim asserts that when a section name appears
in both `contents` and `defaults`, keys defined only in the defaults version
of that section are still present in the result.  `Settings._add_defaults`
is a top-level `dict.update`, so with contents section `a = \x7bk: 1\x7d` and
defaults section `a = \x7bk: 0, d: 2\x7d`, the resulting section is exactly the
contents section and the defaults-only key `d` is gone. -/
theorem c1_counterexample :
    _add_defaults
        [("a", PyVal.dict [("k", PyVal.int 0), ("d", PyVal.int 2)])]
        [("a", PyVal.dict [("k", PyVal.int 1)])] =
      [("a", PyVal.dict [("k", PyVal.int 1)])] ∧
    alistLookup [("k", PyVal.int 1)] "d" = (none : Option PyVal) :=
  ⟨rfl, rfl⟩

/-- C1 (amended): merging defaults is a top-level update.  Every top-level
key bound in `contents` keeps its full `contents` value — in particular a
section appearing in both is taken wholesale from `contents`, so defaults
never override explicit user data, but keys present only in the defaults
version of a shared section are dropped.  Default sections whose names are
absent from `contents` are added wholesale. -/
theorem c1_default_merge (defaults contents : PyDict PyVal)
    (hc : (dictKeys contents).Nodup) (k : String) :
    (∀ v, alistLookup contents k = some v →
      alistLookup (_add_defaults defaults contents) k = some v) ∧
    (alistLookup contents k = none →
      alistLookup (_add_defaults defaults contents) k =
        alistLookup defaults k) :=
  ⟨fun v hv => alistLookup_dictUpdate_of_mem contents defaults k v hc hv,
   fun hnone => alistLookup_dictUpdate_of_not_mem contents defaults k hc hnone⟩

/-- C1 witness: the amended theorem applied at the counterexample input. -/
theorem c1_witness :
    (dictKeys [("a", PyVal.dict [("k", PyVal.int 1)])]).Nodup ∧
    alistLookup [("a", PyVal.dict [("k", PyVal.int 1)])] "a" =
      some (PyVal.dict [("k", PyVal.int 1)]) ∧
    alistLookup
        (_add_defaults
          [("a", PyVal.dict [("k", PyVal.int 0), ("d", PyVal.int 2)])]
          [("a", PyVal.dict [("k", PyVal.int 1)])]) "a" =
      some (PyVal.dict [("k", PyVal.int 1)]) :=
  ⟨by decide, rfl,
    (c1_default_merge
      [("a", PyVal.dict [("k", PyVal.int 0), ("d", PyVal.int 2)])]
      [("a", PyVal.dict [("k", PyVal.int 1)])] (by decide) "a").1
      (PyVal.dict [("k", PyVal.int 1)]) rfl⟩

/-- C2: the type inferencer follows the fixed precedence — integer parse
first; on failure floating-point parse; on failure the case-insensitive
boolean keywords; on no match a split on the literal `", "` with recursive
inference of each piece; otherwise the original string unchanged — and on
the concrete examples: `infer("500") == 500`, `infer("true") is True`,
`infer("%.4f") == "%.4f"`, and `infer("3, 4")` is the list of integers
`[3, 4]`, never a float attempt on the whole string. -/
theorem c2_typify_precedence :
    (∀ (s : String) (n : Int), pyIntOfString s = some n →
      _typify (.str s) = .int n) ∧
    (∀ (s : String) (f : PyFloat), pyIntOfString s = none →
      pyFloatOfString s = some f → _typify (.str s) = .float f) ∧
    (∀ s : String, pyIntOfString s = none → pyFloatOfString s = none →
      (pyLower s.toList = "true" ∨ pyLower s.toList = "yes") →
      _typify (.str s) = .bool true) ∧
    (∀ s : String, pyIntOfString s = none → pyFloatOfString s = none →
      ¬(pyLower s.toList = "true" ∨ pyLower s.toList = "yes") →
      (pyLower s.toList = "false" ∨ pyLower s.toList = "no") →
      _typify (.str s) = .bool false) ∧
    (∀ s : String, pyIntOfString s = none → pyFloatOfString s = none →
      ¬(pyLower s.toList = "true" ∨ pyLower s.toList = "yes") →
      ¬(pyLower s.toList = "false" ∨ pyLower s.toList = "no") →
      (findSep s.toList).isSome →
      _typify (.str s) = .list ((pySplitCS s.toList).map
        (fun p => _typify (.str (String.mk p))))) ∧
    (∀ s : String, pyIntOfString s = none → pyFloatOfString s = none →
      ¬(pyLower s.toList = "true" ∨ pyLower s.toList = "yes") →
      ¬(pyLower s.toList = "false" ∨ pyLower s.toList = "no") →
      ¬(findSep s.toList).isSome → _typify (.str s) = .str s) ∧
    _typify (.str "500") = .int 500 ∧
    _typify (.str "true") = .bool true ∧
    _typify (.str "%.4f") = .str "%.4f" ∧
    _typify (.str "3, 4") = .list [.int 3, .int 4] := by
  have hmk : ∀ s : String, String.mk s.toList = s := fun s => rfl
  refine ⟨?_, ?_, ?_, ?_, ?_, ?_, typify_eval_500, typify_eval_true,
    typify_eval_fmt, typify_eval_34⟩
  · intro s n h
    show typifyChars s.toList = .int n
    rw [typifyChars_eq, hmk, h]
  · intro s f h1 h2
    show typifyChars s.toList = .float f
    rw [typifyChars_eq, hmk, h1, h2]
  · intro s h1 h2 h3
    show typifyChars s.toList = .bool true
    rw [typifyChars_eq, hmk, h1, h2, if_pos h3]
  · intro s h1 h2 h3 h4
    show typifyChars s.toList = .bool false
    rw [typifyChars_eq, hmk, h1, h2, if_neg h3, if_pos h4]
  · intro s h1 h2 h3 h4 h5
    show typifyChars s.toList = _
    rw [typifyChars_eq, hmk, h1, h2, if_neg h3, if_neg h4, if_pos h5]
    rfl
  · intro s h1 h2 h3 h4 h5
    show typifyChars s.toList = .str s
    rw [typifyChars_eq, hmk, h1, h2, if_neg h3, if_neg h4, if_neg h5]

/-- C2 witness: the integer-first clause applied at `"500"`. -/
theorem c2_witness :
    pyIntOfString "500" = some 500 ∧ _typify (.str "500") = .int 500 :=
  ⟨by decide, c2_typify_precedence.1 "500" 500 (by decide)⟩

/-- C3 counterexample.  The claim asserts that with `accumulate=True` and
zero matches the `section_keys` shape returns an empty list.
`get_section_keys` builds a dict of per-section key lists, so the empty
result is the empty mapping, not the empty list. -/
theorem c3_counterexample :
    parse [("alpha", [("beta", PyVal.int 1)])] ["zz"] .all .section_keys
        true true "" = .ok (.dict []) ∧
      PyVal.dict [] ≠ PyVal.list [] :=
  ⟨rfl, fun h => PyVal.noConfusion h⟩

/-- C3 (amended): over a store with zero matching entries, every projection
with `accumulate=False` raises an `IndexError` rather than silently
returning `None`; with `accumulate=True` it returns the empty collection of
the shape's natural type — the empty list for the `keys` shape, and the
empty mapping for `section_keys` and every other shape. -/
theorem c3_empty_match (settings : Store) (terms : List String)
    (m : MatchOptions) (excise : Bool) (divider : String)
    (hout : ∀ name ∈ dictKeys settings,
      matcherFor m name terms excise divider = none)
    (hin : ∀ sec ∈ settings.map Prod.snd, ∀ ik ∈ dictKeys sec,
      matcherFor m ik terms excise divider = none) :
    (∀ r, parse settings terms m r excise false divider =
      .error "IndexError: list index out of range") ∧
    parse settings terms m .keys excise true divider = .ok (.list []) ∧
    (∀ r, r ≠ ReturnsOptions.keys →
      parse settings terms m r excise true divider = .ok (.dict [])) := by
  have hkeys : ∀ (sec : Store), (∀ ik ∈ dictKeys sec,
      matcherFor m ik terms excise divider = none) →
      get_keys sec terms m excise divider = [] := by
    intro sec hsec
    refine List.filterMap_eq_nil.mpr ?_
    intro kv hkv
    rw [hsec kv.1 (List.mem_map_of_mem Prod.fst hkv)]
    rfl
  have hkeysInner : ∀ (sec : Sec), (∀ ik ∈ dictKeys sec,
      matcherFor m ik terms excise divider = none) →
      get_keys sec terms m excise divider = [] := by
    intro sec hsec
    refine List.filterMap_eq_nil.mpr ?_
    intro kv hkv
    rw [hsec kv.1 (List.mem_map_of_mem Prod.fst hkv)]
    rfl
  have hsections : get_sections settings terms m excise divider = [] := by
    have : settings.filterMap (fun kv =>
        match matcherFor m kv.1 terms excise divider with
        | some nk => some (nk.1, kv.2)
        | none => none) = [] := by
      refine List.filterMap_eq_nil.mpr ?_
      intro kv hkv
      rw [hout kv.1 (List.mem_map_of_mem Prod.fst hkv)]
    rw [get_sections, this]
    rfl
  have hkinds : get_kinds settings terms m excise divider = [] := by
    have : settings.filterMap (fun kv =>
        matcherFor m kv.1 terms excise divider) = [] := by
      refine List.filterMap_eq_nil.mpr ?_
      intro kv hkv
      exact hout kv.1 (List.mem_map_of_mem Prod.fst hkv)
    rw [get_kinds, this]
    rfl
  have hgkeys : get_keys settings terms m excise divider = [] := by
    refine List.filterMap_eq_nil.mpr ?_
    intro kv hkv
    rw [hout kv.1 (List.mem_map_of_mem Prod.fst hkv)]
    rfl
  have hcontents : get_contents settings terms m excise divider = [] := by
    have : settings.filterMap (fun ns =>
        let inner := ns.2.filterMap (fun kv =>
          match matcherFor m kv.1 terms excise divider with
          | some nk => some (nk.1, kv.2)
          | none => none)
        if inner.isEmpty then none else some (ns.1, pyDictOfList inner)) =
          [] := by
      refine List.filterMap_eq_nil.mpr ?_
      intro ns hns
      have hinner : ns.2.filterMap (fun kv =>
          match matcherFor m kv.1 terms excise divider with
          | some nk => some (nk.1, kv.2)
          | none => none) = [] := by
        refine List.filterMap_eq_nil.mpr ?_
        intro kv hkv
        rw [hin ns.2 (List.mem_map_of_mem Prod.snd hns) kv.1
          (List.mem_map_of_mem Prod.fst hkv)]
      simp only [hinner]
      rfl
    rw [get_contents, this]
    rfl
  have hsk : get_section_keys settings terms m excise divider = [] := by
    have : settings.filterMap (fun ns =>
        let ks := get_keys ns.2 terms m excise divider
        if ks.isEmpty then none else some (ns.1, ks)) = [] := by
      refine List.filterMap_eq_nil.mpr ?_
      intro ns hns
      have := hkeysInner ns.2 (hin ns.2 (List.mem_map_of_mem Prod.snd hns))
      simp only [this]
      rfl
    rw [get_section_keys, this]
    rfl
  have hskinds : get_section_kinds settings terms m excise divider = [] := by
    have hkindsInner : ∀ (sec : Sec), (∀ ik ∈ dictKeys sec,
        matcherFor m ik terms excise divider = none) →
        get_kinds sec terms m excise divider = [] := by
      intro sec hsec
      have : sec.filterMap (fun kv =>
          matcherFor m kv.1 terms excise divider) = [] := by
        refine List.filterMap_eq_nil.mpr ?_
        intro kv hkv
        exact hsec kv.1 (List.mem_map_of_mem Prod.fst hkv)
      rw [get_kinds, this]
      rfl
    have : settings.filterMap (fun ns =>
        let ks := get_kinds ns.2 terms m excise divider
        if ks.isEmpty then none else some (ns.1, ks)) = [] := by
      refine List.filterMap_eq_nil.mpr ?_
      intro ns hns
      have := hkindsInner ns.2 (hin ns.2 (List.mem_map_of_mem Prod.snd hns))
      simp only [this]
      rfl
    rw [get_section_kinds, this]
    rfl
  refine ⟨?_, ?_, ?_⟩
  · intro r
    cases r <;>
      simp [parse, parseMatches, hsections, hkinds, hgkeys, hcontents,
        hsk, hskinds]
  · simp [parse, parseMatches, hgkeys]
  · intro r hr
    cases r <;>
      simp [parse, parseMatches, hsections, hkinds, hgkeys, hcontents,
        hsk, hskinds] at hr ⊢

/-- C3 witness: the amended theorem applied to a one-section store and a
term list that matches nothing. -/
theorem c3_witness :
    (∀ name ∈ dictKeys [("alpha", [("beta", PyVal.int 1)])],
      matcherFor .all name ["zz"] true "" = none) ∧
    (∀ sec ∈ [("alpha", [("beta", PyVal.int 1)])].map Prod.snd,
      ∀ ik ∈ dictKeys sec, matcherFor .all ik ["zz"] true "" = none) ∧
    parse [("alpha", [("beta", PyVal.int 1)])] ["zz"] .all .sections true
      false "" = .error "IndexError: list index out of range" :=
  ⟨by decide, by decide,
    (c3_empty_match [("alpha", [("beta", PyVal.int 1)])] ["zz"] .all true ""
      (by decide) (by decide)).1 .sections⟩

/-- C4: suffix-mode matching scans terms in declaration order and the first
term `t` for which the item ends with `divider + t` wins, even when a later
term would give a longer match (the conclusion holds for every tail of
later terms); symmetrically for prefix mode with `t + divider` at the
front.  With excise requested the residual is the item with `divider + t`
removed from the end (front), and the matched term is returned alongside.
Concretely, `match_suffix "tasks_parameters" ["parameters"]` with
divider `"_"` and excise gives residual `"tasks"` and term
`"parameters"`. -/
theorem c4_first_term_wins :
    (∀ (item divider t : String) (ts1 ts2 : List String) (excise : Bool),
      (∀ u ∈ ts1, strEndsWith item (divider ++ u) = false) →
      strEndsWith item (divider ++ t) = true →
      match_suffix item (ts1 ++ t :: ts2) excise divider =
        some (if excise then
          strDropRight item (divider ++ t).toList.length else item, t)) ∧
    (∀ (item divider t : String) (ts1 ts2 : List String) (excise : Bool),
      (∀ u ∈ ts1, strStartsWith item (u ++ divider) = false) →
      strStartsWith item (t ++ divider) = true →
      match_prefix item (ts1 ++ t :: ts2) excise divider =
        some (if excise then
          strDrop item (t ++ divider).toList.length else item, t)) ∧
    match_suffix "tasks_parameters" ["parameters"] true "_" =
      some ("tasks", "parameters") := by
  refine ⟨?_, ?_, by decide⟩
  · intro item divider t ts1 ts2 excise hearlier ht
    induction ts1 with
    | nil =>
        rw [List.nil_append, match_suffix]
        rw [ht]
        cases excise with
        | false => rfl
        | true =>
            simp only [if_pos rfl, dropSuffixStr, ht]
            rfl
    | cons u us ih =>
        have hu : strEndsWith item (divider ++ u) = false :=
          hearlier u (List.mem_cons_self u us)
        rw [List.cons_append, match_suffix, hu]
        exact ih (fun w hw => hearlier w (List.mem_cons_of_mem u hw))
  · intro item divider t ts1 ts2 excise hearlier ht
    induction ts1 with
    | nil =>
        rw [List.nil_append, match_prefix]
        rw [ht]
        cases excise with
        | false => rfl
        | true =>
            simp only [if_pos rfl, dropPrefixStr, ht]
            rfl
    | cons u us ih =>
        have hu : strStartsWith item (u ++ divider) = false :=
          hearlier u (List.mem_cons_self u us)
        rw [List.cons_append, match_prefix, hu]
        exact ih (fun w hw => hearlier w (List.mem_cons_of_mem u hw))

/-- C4 witness: the suffix clause applied to `"random_test_chunk"` with the
earlier term `"chunk"` winning although the later term `"test_chunk"` would
give a longer match. -/
theorem c4_witness :
    strEndsWith "random_test_chunk" ("_" ++ "chunk") = true ∧
    match_suffix "random_test_chunk" ([] ++ "chunk" :: ["test_chunk"])
        true "_" =
      some (if true then
        strDropRight "random_test_chunk" ("_" ++ "chunk").toList.length
        else "random_test_chunk", "chunk") :=
  ⟨by decide,
    c4_first_term_wins.1 "random_test_chunk" "_" "chunk" [] ["test_chunk"]
      true (by decide) (by decide)⟩

/-- C5 counterexample.  The claim asserts that defaults are merged first
and the type inferencer then runs over every leaf of the merged structure,
so string leaves entering only through defaults would be inferred.  In
`Settings.__post_init__` the order is the opposite: `_infer_types` runs
over the loaded contents (here empty) and `_add_defaults` runs afterwards,
so the defaults-only leaf `"true"` stays a string instead of becoming the
boolean the claim requires. -/
theorem c5_counterexample :
    settings_post_init [] [("a", PyVal.dict [("k", PyVal.str "true")])]
        true = [("a", PyVal.dict [("k", PyVal.str "true")])] ∧
      PyVal.str "true" ≠ PyVal.bool true :=
  ⟨rfl, fun h => PyVal.noConfusion h⟩

/-- C5 (amended): construction runs the TypeInferencer first, over the
loaded contents only, and then merges the defaults underneath.  Every
top-level entry of `contents` appears inferred in the result; every entry
reaching the store only through `defaults` appears verbatim, its string
leaves not type-inferred. -/
theorem c5_infer_before_defaults (contents defaults : PyDict PyVal)
    (hc : (dictKeys contents).Nodup) (k : String) :
    (∀ v, alistLookup contents k = some v →
      alistLookup (settings_post_init contents defaults true) k =
        some (inferValue v)) ∧
    (alistLookup contents k = none →
      alistLookup (settings_post_init contents defaults true) k =
        alistLookup defaults k) := by
  have hinfer : _infer_types contents =
      contents.map (fun kv => (kv.1, inferValue kv.2)) := by
    rw [_infer_types]
    exact pyDictOfList_eq_self _ (by rw [dictKeys_map_value]; exact hc)
  have hpost : settings_post_init contents defaults true =
      dictUpdate defaults (contents.map (fun kv => (kv.1, inferValue kv.2))) := by
    rw [settings_post_init, if_pos rfl, _add_defaults, hinfer]
  have hnodup : (dictKeys
      (contents.map (fun kv => (kv.1, inferValue kv.2)))).Nodup := by
    rw [dictKeys_map_value]
    exact hc
  constructor
  · intro v hv
    rw [hpost]
    refine alistLookup_dictUpdate_of_mem _ _ _ _ hnodup ?_
    rw [alistLookup_map_value, hv]
    rfl
  · intro hnone
    rw [hpost]
    refine alistLookup_dictUpdate_of_not_mem _ _ _ hnodup ?_
    rw [alistLookup_map_value, hnone]
    rfl

/-- C5 witness: the amended theorem applied at the counterexample input,
showing the contents leaf is inferred while the defaults-only section is
returned verbatim. -/
theorem c5_witness :
    (dictKeys [("b", PyVal.str "43")]).Nodup ∧
    alistLookup [("b", PyVal.str "43")] "a" = (none : Option PyVal) ∧
    alistLookup
        (settings_post_init [("b", PyVal.str "43")]
          [("a", PyVal.dict [("k", PyVal.str "true")])] true) "a" =
      alistLookup [("a", PyVal.dict [("k", PyVal.str "true")])] "a" :=
  ⟨by decide, rfl,
    (c5_infer_before_defaults [("b", PyVal.str "43")]
      [("a", PyVal.dict [("k", PyVal.str "true")])] (by decide) "a").2 rfl⟩

/-- C6 counterexample.  The claim asserts that assigning through a bound
descriptor performs `store[resolved_key] = value` as a wholesale
replacement of the section.  `Settings.__setitem__` first tries
`self.contents[key].update(value)`, which merges key-by-key into an
existing section: assigning `\x7bb: 2\x7d` over section `general = \x7ba: 1\x7d`
leaves `a` in place, whereas wholesale replacement would give `\x7bb: 2\x7d`. -/
theorem c6_counterexample :
    parserSet ⟨["general"], .all, .sections, true, true, ""⟩
        [("general", [("a", PyVal.int 1)])] [("b", PyVal.int 2)] =
      .ok [("general", [("a", PyVal.int 1), ("b", PyVal.int 2)])] ∧
    [("a", PyVal.int 1), ("b", PyVal.int 2)] ≠ [("b", PyVal.int 2)] :=
  ⟨rfl, fun h => absurd (congrArg List.length h) (by decide)⟩

/-- C6 (amended): assigning a value to a bound descriptor resolves the
target key as the first store key that equals one of the descriptor's terms
(exact matching with excision disabled, whatever the descriptor's own mode
is), falling back to the first declared term when no store key matches.
The subsequent `store[resolved_key] = value` merges key-by-key into an
existing section — keys of the old section absent from `value` survive —
and only creates the section wholesale when the resolved key is absent from
the store. -/
theorem c6_descriptor_set (p : Parser) (c : Store) (v : Sec) :
    (∀ divider, get_keys c p.terms .all false divider =
      (dictKeys c).filter (fun k => decide (k ∈ p.terms))) ∧
    (∀ (k : String) (ks : List String) (sec : Sec),
      get_keys c p.terms .all false "" = k :: ks →
      alistLookup c k = some sec →
      parserSet p c v = .ok (alistInsert c k (dictUpdate sec v)) ∧
      alistLookup (alistInsert c k (dictUpdate sec v)) k =
        some (dictUpdate sec v) ∧
      (∀ (ik : String) (w : PyVal), alistLookup sec ik = some w →
        alistLookup v ik = none →
        alistLookup (dictUpdate sec v) ik = some w)) ∧
    (∀ (t : String) (ts : List String),
      get_keys c p.terms .all false "" = [] → p.terms = t :: ts →
      parserSet p c v = .ok (alistInsert c t v)) := by
  refine ⟨fun divider => get_keys_all c p.terms false divider, ?_, ?_⟩
  · intro k ks sec hres hsec
    refine ⟨?_, ?_, ?_⟩
    · rw [parserSet]
      simp only [hres, settingsSetitem, hsec]
    · rw [alistLookup_insert, if_pos rfl]
    · intro ik w hw hvnone
      rw [alistLookup_dictUpdate_right_none v sec ik hvnone, hw]
  · intro t ts hres hterms
    have ht : alistLookup c t = none := by
      refine alistLookup_eq_none_of_not_mem c t ?_
      intro hmem
      have : t ∈ (dictKeys c).filter (fun k => decide (k ∈ p.terms)) :=
        List.mem_filter.mpr ⟨hmem, by simp [hterms]⟩
      rw [← get_keys_all c p.terms false "", hres] at this
      cases this
    rw [hterms] at hres
    rw [parserSet, hterms]
    simp only [hres, settingsSetitem, ht]

/-- C6 witness: the resolve-and-merge clause applied at the counterexample
input. -/
theorem c6_witness :
    get_keys [("general", [("a", PyVal.int 1)])] ["general"] .all false ""
        = "general" :: [] ∧
    alistLookup [("general", [("a", PyVal.int 1)])] "general" =
      some [("a", PyVal.int 1)] ∧
    parserSet ⟨["general"], .all, .sections, true, true, ""⟩
        [("general", [("a", PyVal.int 1)])] [("b", PyVal.int 2)] =
      .ok (alistInsert [("general", [("a", PyVal.int 1)])] "general"
        (dictUpdate [("a", PyVal.int 1)] [("b", PyVal.int 2)])) :=
  ⟨by decide, rfl,
    ((c6_descriptor_set ⟨["general"], .all, .sections, true, true, ""⟩
      [("general", [("a", PyVal.int 1)])] [("b", PyVal.int 2)]).2.1
      "general" [] [("a", PyVal.int 1)] (by decide) rfl).1⟩

/-- C7 counterexample.  The claim asserts `infer(infer(x)) == infer(x)` for
every input.  At `x = "nan"` the inference result is the float `nan`, and
Python's `==` on `nan` is false even against itself, so the claimed
equality fails. -/
theorem c7_counterexample :
    pyEq (_typify (_typify (.str "nan"))) (_typify (.str "nan")) = false := by
  have h1 : _typify (.str "nan") = .float .nan := typify_eval_nan
  rw [h1]
  have h2 : _typify (.float .nan) = .float .nan := rfl
  rw [h2]
  rw [pyEq]
  · rfl
  all_goals intro a b h h2x; exact PyVal.noConfusion h

/-- C7 (amended): applying the type inferencer to its own output is a
no-op as a value transformation — `infer(infer(x))` is the very same value
as `infer(x)` for every input, because non-string inputs pass through
unchanged and any string output re-infers to itself.  Stated with Python's
`==` the property additionally fails exactly on results containing `nan`
(see the counterexample), since `nan != nan`. -/
theorem c7_typify_idempotent (v : PyVal) :
    _typify (_typify v) = _typify v := by
  cases v with
  | str s =>
      show _typify (typifyChars s.toList) = typifyChars s.toList
      rcases typifyChars_cases s.toList with
        ⟨n, h⟩ | ⟨f, h⟩ | ⟨b, h⟩ | ⟨xs, h⟩ | h
      · rw [h]; rfl
      · rw [h]; rfl
      · rw [h]; rfl
      · rw [h]; rfl
      · rw [h]
        exact h
  | int n => rfl
  | float f => rfl
  | bool b => rfl
  | list xs => rfl
  | dict xs => rfl

/-- C8: the three matchers of src/bobbie/parsers.py return the explicit
no-match signal `None` — not an exception — whenever no term matches the
item under the selected mode; but `workshop.match_complete`, also cited by
the claim, raises `AttributeError` on every call (matching or not), because
its body iterates `camina.terms` — a nonexistent module attribute — instead
of its own `terms` parameter. -/
theorem c8_matchers_no_match :
    (∀ (item : String) (terms : List String) (excise : Bool)
        (divider : String), (∀ t ∈ terms, item ≠ t) →
      match_all item terms excise divider = none) ∧
    (∀ (item : String) (terms : List String) (excise : Bool)
        (divider : String),
      (∀ t ∈ terms, strStartsWith item (t ++ divider) = false) →
      match_prefix item terms excise divider = none) ∧
    (∀ (item : String) (terms : List String) (excise : Bool)
        (divider : String),
      (∀ t ∈ terms, strEndsWith item (divider ++ t) = false) →
      match_suffix item terms excise divider = none) ∧
    (∀ (item : String) (terms : List String),
      match_complete item terms =
        .error "AttributeError: module camina has no attribute terms") := by
  refine ⟨?_, ?_, ?_, fun item terms => rfl⟩
  · intro item terms excise divider h
    induction terms with
    | nil => rfl
    | cons t rest ih =>
        rw [match_all, if_neg (h t (List.mem_cons_self t rest))]
        exact ih (fun u hu => h u (List.mem_cons_of_mem t hu))
  · intro item terms excise divider h
    induction terms with
    | nil => rfl
    | cons t rest ih =>
        rw [ match_prefix]
        rw [h t (List.mem_cons_self t rest)]
        exact ih (fun u hu => h u (List.mem_cons_of_mem t hu))
  · intro item terms excise divider h
    induction terms with
    | nil => rfl
    | cons t rest ih =>
        rw [match_suffix]
        rw [h t (List.mem_cons_self t rest)]
        exact ih (fun u hu => h u (List.mem_cons_of_mem t hu))

/-- C8 witness: the no-match clauses applied at a concrete non-matching
item, and the modelled `match_complete` failure at the same input. -/
theorem c8_witness :
    (∀ t ∈ ["general", "files"], "tasks" ≠ t) ∧
    match_all "tasks" ["general", "files"] true "" = none ∧
    match_suffix "tasks" ["general", "files"] true "_" = none ∧
    match_complete "tasks" ["general", "files"] =
      .error "AttributeError: module camina has no attribute terms" :=
  ⟨by decide,
    c8_matchers_no_match.1 "tasks" ["general", "files"] true "" (by decide),
    c8_matchers_no_match.2.2.1 "tasks" ["general", "files"] true "_"
      (by decide),
    c8_matchers_no_match.2.2.2 "tasks" ["general", "files"]⟩

/-- C9: reading a projection — standalone `parse` or the bound descriptor
read `Parser.__get__` — never mutates the store (the state component of the
state-passing read is the store unchanged), and every read recomputes the
view fresh from the store's current contents: reading again after a read
returns the same projection of the unchanged store, and reading after a
`Settings.__setitem__` mutation returns exactly the projection of the
mutated contents, with no cached value interposed. -/
theorem c9_view_read_pure (p : Parser) (s : Store) :
    (parserGetS p s).2 = s ∧
    (parserGetS p ((parserGetS p s).2)).1 = parserGet p s ∧
    (parserGetS p s).1 =
      parse s p.terms p.scope p.returns p.excise p.accumulate p.divider ∧
    (∀ (k : String) (v : Sec),
      (parserGetS p (settingsSetitem s k v)).1 =
        parse (settingsSetitem s k v) p.terms p.scope p.returns p.excise
          p.accumulate p.divider) :=
  ⟨rfl, rfl, rfl, fun _ _ => rfl⟩

/-- C10: the default-merging step of src/src/bobbie/core.py does not copy
the class-level defaults: `new_contents = self.defaults` aliases it,
`update` mutates it in place with the loaded contents, and the result is
installed as the instance contents — so after construction the instance
contents and the class defaults are the same mapping, and every top-level
section loaded into one instance is visible in the defaults used by
instances constructed afterwards (here: a second instance whose own
contents do not bind the key still sees the first instance's section). -/
theorem c10_defaults_aliased (d c c2 : Store) (k : String) (v : Sec)
    (hc : (dictKeys c).Nodup) (hv : alistLookup c k = some v)
    (h2 : alistLookup c2 k = none) :
    (postInitShared d c).1 = (postInitShared d c).2 ∧
    alistLookup (postInitShared d c).2 k = some v ∧
    alistLookup ((postInitShared ((postInitShared d c).2) c2).1) k =
      some v := by
  refine ⟨rfl, ?_, ?_⟩
  · exact alistLookup_dictUpdate_of_mem c d k v hc hv
  · show alistLookup (dictUpdate (dictUpdate d c) c2) k = some v
    rw [alistLookup_dictUpdate_right_none c2 (dictUpdate d c) k h2]
    exact alistLookup_dictUpdate_of_mem c d k v hc hv

/-- C10 witness: the theorem applied to a first instance loading section
`project` over empty class defaults and a second instance with unrelated
contents. -/
theorem c10_witness :
    (dictKeys [("project", [("seed", PyVal.int 43)])]).Nodup ∧
    alistLookup [("project", [("seed", PyVal.int 43)])] "project" =
      some [("seed", PyVal.int 43)] ∧
    alistLookup [("other", [("x", PyVal.int 1)])] "project" =
      (none : Option Sec) ∧
    alistLookup
        ((postInitShared
          ((postInitShared [] [("project", [("seed", PyVal.int 43)])]).2)
          [("other", [("x", PyVal.int 1)])]).1) "project" =
      some [("seed", PyVal.int 43)] :=
  ⟨by decide, rfl, rfl,
    (c10_defaults_aliased [] [("project", [("seed", PyVal.int 43)])]
      [("other", [("x", PyVal.int 1)])] "project" [("seed", PyVal.int 43)]
      (by decide) rfl rfl).2.2⟩

end Bobbie
